import Mathlib

/-!
# Verification of the portalocker lock-acquisition engine

A shallow embedding of `src/portalocker/utils.py`: the `Lock` acquisition
state machine (open / try-lock / poll loop / timeout), `release`, the
`open_atomic` write-then-rename helper, and — modelled from the spec where
the repository omits the bodies — the reentrant lock counter and the
bounded-semaphore slot scan.

Python strings used as open modes are embedded as `List Char`; wall-clock
times and durations are embedded as `ℚ`.  The platform lock primitive
(`portalocker.lock`, an external collaborator per the spec) is abstracted
as an oracle `attempts : Nat → Bool` giving the outcome of the i-th OS
lock attempt, and `time.time()` as a clock `clk : Nat → ℚ` giving the
value of the i-th call.  File handles are numbered by the attempt that
opened them.
-/

namespace Portalocker

/-- Constant from utils.py line 14: `DEFAULT_TIMEOUT = 5`. -/
def DEFAULT_TIMEOUT : ℚ := 5

/-- Constant from utils.py line 15: `DEFAULT_CHECK_INTERVAL = 0.25`. -/
def DEFAULT_CHECK_INTERVAL : ℚ := 1/4

/-- Constant from utils.py line 16: `DEFAULT_FAIL_WHEN_LOCKED = False`. -/
def DEFAULT_FAIL_WHEN_LOCKED : Bool := false

/-- Python `str.replace(old, new)` restricted to a one-character pattern and
replacement, which is exactly a character-wise substitution.  Used for
`mode.replace('w', 'a')` in `Lock.__init__` (utils.py line 130). -/
def pyReplaceChar (s : List Char) (old new : Char) : List Char :=
  s.map fun c => if c = old then new else c

/-- Exceptions raised on the contention path of `Lock.acquire`.
`contention i` is the `exceptions.LockException` raised by
`portalocker.lock` at the i-th OS lock attempt; `wrapped e` is
`exceptions.LockException(exception)` (utils.py line 177), the timeout
error carrying the original contention error `e` as its argument. -/
inductive LockExc where
  | contention (attempt : Nat)
  | wrapped (orig : LockExc)
deriving DecidableEq, Repr

/-- Observable I/O events of one `Lock.acquire` / `Lock.release` run.
Handles are identified by the index of the lock attempt that opened them. -/
inductive Event where
  | openFile (h : Nat)
  | tryLock (h : Nat) (ok : Bool)
  | closeFile (h : Nat)
  | sleep (d : ℚ)
  | seekZero (h : Nat)
  | truncateZero (h : Nat)
  | unlockFile (h : Nat)
deriving DecidableEq, Repr

/-- The attributes of a `Lock` instance set by `Lock.__init__`
(utils.py lines 137-145): held handle, filename, (rewritten) mode,
deferred-truncate flag, and the acquisition configuration. -/
structure LockState where
  fh : Option Nat
  filename : String
  mode : List Char
  truncate : Bool
  timeout : ℚ
  check_interval : ℚ
  fail_when_locked : Bool
deriving DecidableEq, Repr

/-- Model of `Lock.__init__` (utils.py lines 127-145): when the requested mode
contains `'w'` the truncate flag is set and every `'w'` in the mode is
replaced by `'a'`; a `None` timeout falls back to `DEFAULT_TIMEOUT`;
`fh` starts unset. -/
def Lock.init (filename : String) (mode : List Char) (timeout : Option ℚ)
    (check_interval : ℚ) (fail_when_locked : Bool) : LockState :=
  let truncate : Bool := 'w' ∈ mode
  let mode' := if 'w' ∈ mode then pyReplaceChar mode 'w' 'a' else mode
  { fh := none
    filename := filename
    mode := mode'
    truncate := truncate
    timeout := timeout.getD DEFAULT_TIMEOUT
    check_interval := check_interval
    fail_when_locked := fail_when_locked }

/-- Model of `Lock._prepare_fh` (utils.py lines 206-216): when the truncate flag is
set, seek to 0 and truncate the handle to 0 bytes; otherwise do nothing. -/
def prepare_fh (st : LockState) (h : Nat) : List Event :=
  if st.truncate then [Event.seekZero h, Event.truncateZero h] else []

/-- The `while True` poll loop of `Lock.acquire` (utils.py lines 168-177).
Iteration `i` (the i-th OS lock attempt overall): sleep `check_interval`,
open a fresh handle, try the lock.  On success the loop breaks returning
the handle; on `LockException` the handle is closed and, when
`time.time() > timeout_end` (the i-th clock reading), the loop raises
`LockException(exception)` wrapping the original contention error `orig`.
`fuel` bounds the number of iterations modelled; `none` means the loop was
still running when the fuel ran out. -/
def acquireLoop (attempts : Nat → Bool) (clk : Nat → ℚ) (check_interval : ℚ)
    (timeout_end : ℚ) (orig : LockExc) (i : Nat) :
    Nat → Option (Except LockExc Nat) × List Event
  | 0 => (none, [])
  | fuel + 1 =>
    let evs := [Event.sleep check_interval, Event.openFile i,
      Event.tryLock i (attempts i)]
    if attempts i then
      (some (Except.ok i), evs)
    else
      let evs := evs ++ [Event.closeFile i]
      if clk i > timeout_end then
        (some (Except.error (LockExc.wrapped orig)), evs)
      else
        let rest := acquireLoop attempts clk check_interval timeout_end orig
          (i + 1) fuel
        (rest.1, evs ++ rest.2)

/-- Model of `Lock.acquire` (utils.py lines 147-182).  `timeoutArg`,
`checkIntervalArg`, `fwlArg` are the optional call arguments, `None`
falling back to the instance attribute.  Lock attempt `i` opens handle `i`
and succeeds iff `attempts i`; the i-th `time.time()` call returns `clk i`
(call 0 computes `timeout_end`, call `i ≥ 1` is the check after failed
loop attempt `i`).  Returns the result (`none` if the poll loop outran
`fuel`), the updated instance state, and the event trace. -/
def acquire (st : LockState) (timeoutArg checkIntervalArg : Option ℚ)
    (fwlArg : Option Bool) (attempts : Nat → Bool) (clk : Nat → ℚ)
    (fuel : Nat) : Option (Except LockExc Nat) × LockState × List Event :=
  if attempts 0 then
    (some (Except.ok 0), { st with fh := some 0 },
      [Event.openFile 0, Event.tryLock 0 (attempts 0)] ++ prepare_fh st 0)
  else if fwlArg.getD st.fail_when_locked then
    (some (Except.error (LockExc.contention 0)), st,
      [Event.openFile 0, Event.tryLock 0 (attempts 0), Event.closeFile 0])
  else
    match acquireLoop attempts clk (checkIntervalArg.getD st.check_interval)
        (clk 0 + timeoutArg.getD st.timeout) (LockExc.contention 0) 1 fuel with
    | (some (Except.ok h), evs) =>
      (some (Except.ok h), { st with fh := some h },
        ([Event.openFile 0, Event.tryLock 0 (attempts 0), Event.closeFile 0]
          ++ evs) ++ prepare_fh st h)
    | (some (Except.error e), evs) =>
      (some (Except.error e), st,
        [Event.openFile 0, Event.tryLock 0 (attempts 0), Event.closeFile 0]
          ++ evs)
    | (none, evs) =>
      (none, st,
        [Event.openFile 0, Event.tryLock 0 (attempts 0), Event.closeFile 0]
          ++ evs)

/-- Model of `Lock.release` (utils.py lines 187-192): when a handle is held, unlock
it, close it and clear `fh`; otherwise do nothing. -/
def release (st : LockState) : LockState × List Event :=
  match st.fh with
  | some h => ({ st with fh := none }, [Event.unlockFile h, Event.closeFile h])
  | none => (st, [])

/-! ## Atomic replace (`open_atomic`, utils.py lines 45-84)

The filesystem is a map from paths to file contents; path resolution
(`os.path.dirname(os.path.abspath(...))`) is plain I/O declared out of
scope by the spec and is passed in as a function `dirnameAbs`.  The body
of the `with` scope is summarised by the content it wrote to the temporary
handle and whether it raised. -/

/-- Filesystem events of one `open_atomic` run.  `createTemp t d` is the
`tempfile.NamedTemporaryFile(dir=d, delete=False)` call creating the file
whose full path is `t`. -/
inductive FsEvent where
  | createTemp (tmpPath : String) (dir : String)
  | writeTemp (tmpPath : String) (content : String)
  | closeTemp (tmpPath : String)
  | rename (src : String) (dst : String)
  | unlink (path : String)
deriving DecidableEq, Repr

/-- A filesystem: existing paths mapped to their contents. -/
def FS : Type := String → Option String

/-- Effect of one `FsEvent` on the filesystem. -/
def FsEvent.apply (fs : FS) : FsEvent → FS
  | .createTemp t _ => fun p => if p = t then some "" else fs p
  | .writeTemp t c => fun p => if p = t then some c else fs p
  | .closeTemp _ => fs
  | .rename s d => fun p => if p = s then none else if p = d then fs s else fs p
  | .unlink t => fun p => if p = t then none else fs p

/-- Run a list of filesystem events from left to right. -/
def runFs (fs : FS) : List FsEvent → FS
  | [] => fs
  | e :: rest => runFs (e.apply fs) rest

/-- Model of `open_atomic` (utils.py lines 45-84).  A temporary file at fresh path
`tmpPath` is created in `dirnameAbs filename`; the caller's scope writes
`written` to it and finishes with `body` (`ok` for normal exit, `error e`
for a raised exception `e`).  Normal exit closes the temporary handle and
renames it onto `filename`; any failure closes the handle, unlinks the
temporary file and re-raises. -/
def open_atomic (dirnameAbs : String → String) (tmpPath : String)
    (filename : String) (written : String) (body : Except String Unit) :
    Except String Unit × List FsEvent :=
  let temp_dir := dirnameAbs filename
  let evs0 := [FsEvent.createTemp tmpPath temp_dir,
    FsEvent.writeTemp tmpPath written]
  match body with
  | Except.ok _ =>
    (Except.ok (), evs0 ++ [FsEvent.closeTemp tmpPath,
      FsEvent.rename tmpPath filename])
  | Except.error e =>
    (Except.error e, evs0 ++ [FsEvent.closeTemp tmpPath,
      FsEvent.unlink tmpPath])

/-! ## Reentrant lock (`RLock`, utils.py lines 218-227)

`src/portalocker/utils.py` declares `RLock` with only its constructor
(`_acquire_count = 0`); the `acquire`/`release` overrides wiring the
counter to the underlying lock are not in the file.  They are modelled
from the spec below. -/

/-- The reentrancy-relevant state of an `RLock`: the acquisition counter
and whether the underlying file lock is currently held. -/
structure RLockState where
  count : Nat
  underlying : Bool
deriving DecidableEq, Repr

/-- Model of `RLock.__init__` (utils.py lines 225-227): `_acquire_count = 0` and no
lock held yet. -/
def RLock.init : RLockState := { count := 0, underlying := false }

/-- Modelled from the spec: `RLock.acquire` is absent from
`src/portalocker/utils.py`; spec 4.3 says acquiring increments the
counter, taking the underlying file lock only on the 0-to-1 transition
(re-acquisition by the holder must not block on itself).  The returned
`Bool` reports whether this call took the underlying file lock. -/
def RLock.acquire (s : RLockState) : RLockState × Bool :=
  if s.count ≥ 1 then ({ s with count := s.count + 1 }, false)
  else ({ count := s.count + 1, underlying := true }, true)

/-- Modelled from the spec: `RLock.release` is absent from
`src/portalocker/utils.py`; spec 4.3 says releasing decrements the
counter, releasing the underlying file lock only on the 1-to-0 transition
(the counter is non-negative; spec 4.3 gives release no effect below
zero).  The returned `Bool` reports whether this call released the
underlying file lock. -/
def RLock.release (s : RLockState) : RLockState × Bool :=
  if s.count = 1 then ({ count := 0, underlying := false }, true)
  else ({ s with count := s.count - 1 }, false)

/-- Iterated acquisition: `k` successive `RLock.acquire` calls, returning how
many of the calls took the underlying file lock. -/
def RLock.acquireN (s : RLockState) : Nat → RLockState × Nat
  | 0 => (s, 0)
  | k + 1 =>
    let step := RLock.acquire s
    let rest := RLock.acquireN step.1 k
    (rest.1, (if step.2 then 1 else 0) + rest.2)

/-- Iterated release: `k` successive `RLock.release` calls, returning how
many of the calls released the underlying file lock. -/
def RLock.releaseN (s : RLockState) : Nat → RLockState × Nat
  | 0 => (s, 0)
  | k + 1 =>
    let step := RLock.release s
    let rest := RLock.releaseN step.1 k
    (rest.1, (if step.2 then 1 else 0) + rest.2)

/-! ## Bounded semaphore (utils.py lines 235-260)

`src/portalocker/utils.py` declares `BoundedSemaphore` with only its
constructor; the filename computation and the slot-scanning `acquire` are
not in the file and are modelled from the spec. -/

/-- Zero-padded two-digit rendering of a slot number, the `{number:02d}`
field of the filename pattern. -/
def pad2 (n : Nat) : String :=
  if n < 10 then "0" ++ toString n else toString n

/-- Modelled from the spec: the semaphore's candidate lock-file names are
computed from the `{name}.{number:02d}.lock` template for slot numbers
`0 .. maximum-1` (spec 4.4, and the doctest at utils.py lines 244-248). -/
def BoundedSemaphore.get_filenames (name : String) (maximum : Nat) :
    List String :=
  (List.range maximum).map fun n => name ++ "." ++ pad2 n ++ ".lock"

/-- Result of a bounded-semaphore acquisition: the slot index acquired, or
the `AlreadyLocked` failure when every slot is contended. -/
inductive SemResult where
  | ok (slot : Nat)
  | allSlotsLocked
deriving DecidableEq, Repr

/-- Modelled from the spec: the sequential slot scan of
`BoundedSemaphore.acquire`, absent from `src/portalocker/utils.py`.
Spec 4.4: try slot 0, then 1, ... in order, each individual attempt with
`fail_when_locked=true`; the first free slot wins, and if every slot is
contended the semaphore raises `AlreadyLocked`.  `locked i` says slot `i`
is currently contended; the trace records each attempted slot with the
`fail_when_locked` value used for it. -/
def semTrySlots (locked : Nat → Bool) : List Nat → SemResult × List (Nat × Bool)
  | [] => (SemResult.allSlotsLocked, [])
  | i :: rest =>
    if locked i then
      let r := semTrySlots locked rest
      (r.1, (i, true) :: r.2)
    else
      (SemResult.ok i, [(i, true)])

/-- Modelled from the spec: `BoundedSemaphore.acquire` under the
sequential selection policy scans the slots `0 .. maximum-1` in order. -/
def BoundedSemaphore.acquire (maximum : Nat) (locked : Nat → Bool) :
    SemResult × List (Nat × Bool) :=
  semTrySlots locked (List.range maximum)

/-! ## Theorems -/

/-- C8: `release()` with a held handle unlocks it, closes it and clears
the held state; `release()` with nothing held is a no-op that raises
nothing; hence releasing twice equals releasing once. -/
theorem C8_release_defensive (st : LockState) (h : Nat) :
    release { st with fh := some h }
      = ({ st with fh := none }, [Event.unlockFile h, Event.closeFile h]) ∧
    release { st with fh := none } = ({ st with fh := none }, []) ∧
    release (release st).1 = ((release st).1, []) := by
  refine ⟨rfl, rfl, ?_⟩
  cases hfh : st.fh <;> simp [release, hfh]

/-- Helper: `acquire` either leaves the instance state unchanged or only records
a held handle in `fh`. -/
theorem acquire_st_shape (st : LockState) (tA cA : Option ℚ) (fA : Option Bool)
    (attempts : Nat → Bool) (clk : Nat → ℚ) (fuel : Nat) :
    (acquire st tA cA fA attempts clk fuel).2.1 = st ∨
    ∃ h, (acquire st tA cA fA attempts clk fuel).2.1
      = { st with fh := some h } := by
  unfold acquire
  cases h0 : attempts 0
  · cases hfw : fA.getD st.fail_when_locked
    · rcases hl : acquireLoop attempts clk (cA.getD st.check_interval)
          (clk 0 + tA.getD st.timeout) (LockExc.contention 0) 1 fuel
        with ⟨r2, evs2⟩
      rcases r2 with _ | r2
      · left; rfl
      · rcases r2 with e | h
        · left; rfl
        · right; exact ⟨h, rfl⟩
    · left; rfl
  · right; exact ⟨0, rfl⟩

/-- C9: explicit `acquire` arguments override the instance configuration
only for the call — the instance fields `timeout`, `check_interval` and
`fail_when_locked` are unchanged by any `acquire` run — and unspecified
arguments fall back to the instance values. -/
theorem C9_acquire_frame (st : LockState) (tA cA : Option ℚ) (fA : Option Bool)
    (attempts : Nat → Bool) (clk : Nat → ℚ) (fuel : Nat) :
    ((acquire st tA cA fA attempts clk fuel).2.1.timeout = st.timeout ∧
     (acquire st tA cA fA attempts clk fuel).2.1.check_interval
       = st.check_interval ∧
     (acquire st tA cA fA attempts clk fuel).2.1.fail_when_locked
       = st.fail_when_locked) ∧
    acquire st none none none attempts clk fuel
      = acquire st (some st.timeout) (some st.check_interval)
          (some st.fail_when_locked) attempts clk fuel := by
  constructor
  · rcases acquire_st_shape st tA cA fA attempts clk fuel with h | ⟨h2, h⟩ <;>
      rw [h] <;> exact ⟨rfl, rfl, rfl⟩
  · rfl

/-- One spec `RLock.acquire` step from a held state with positive counter:
the counter is incremented and the underlying lock is not re-taken. -/
theorem RLock.acquire_pos (c : Nat) :
    RLock.acquire { count := c + 1, underlying := true }
      = ({ count := c + 2, underlying := true }, false) := by
  simp only [RLock.acquire]
  rw [if_pos (show (1:Nat) ≤ c + 1 from Nat.le_add_left 1 c)]

/-- One spec `RLock.release` step from a held state with counter at least
2: the counter is decremented and the underlying lock is kept. -/
theorem RLock.release_ge_two (c : Nat) :
    RLock.release { count := c + 2, underlying := true }
      = ({ count := c + 1, underlying := true }, false) := by
  simp only [RLock.release]
  rw [if_neg (show ¬ c + 2 = 1 by omega)]
  rfl

/-- Unfolding of `RLock.acquireN` at a successor, with the first step's
result given as a pair. -/
theorem RLock.acquireN_succ (s s' : RLockState) (b : Bool) (k : Nat)
    (h : RLock.acquire s = (s', b)) :
    RLock.acquireN s (k + 1)
      = ((RLock.acquireN s' k).1,
         (if b then 1 else 0) + (RLock.acquireN s' k).2) := by
  show ((RLock.acquireN (RLock.acquire s).1 k).1,
      (if (RLock.acquire s).2 then 1 else 0)
        + (RLock.acquireN (RLock.acquire s).1 k).2) = _
  rw [h]

/-- Unfolding of `RLock.releaseN` at a successor, with the first step's
result given as a pair. -/
theorem RLock.releaseN_succ (s s' : RLockState) (b : Bool) (k : Nat)
    (h : RLock.release s = (s', b)) :
    RLock.releaseN s (k + 1)
      = ((RLock.releaseN s' k).1,
         (if b then 1 else 0) + (RLock.releaseN s' k).2) := by
  show ((RLock.releaseN (RLock.release s).1 k).1,
      (if (RLock.release s).2 then 1 else 0)
        + (RLock.releaseN (RLock.release s).1 k).2) = _
  rw [h]

/-- Starting from a held state with a positive counter, `k` acquires only
add `k` to the counter and never re-take the underlying lock. -/
theorem RLock.acquireN_of_pos (c k : Nat) :
    RLock.acquireN { count := c + 1, underlying := true } k
      = ({ count := c + 1 + k, underlying := true }, 0) := by
  induction k generalizing c with
  | zero => rfl
  | succ k ih =>
    rw [RLock.acquireN_succ _ _ _ _ (RLock.acquire_pos c),
      show ({ count := c + 2, underlying := true } : RLockState)
        = { count := (c + 1) + 1, underlying := true } from rfl,
      ih (c + 1)]
    simp only [Prod.mk.injEq, RLockState.mk.injEq]
    exact ⟨⟨by omega, by trivial⟩, by trivial⟩

/-- From a held state with counter `c`, `j < c` releases decrement the
counter to `c - j` without ever releasing the underlying lock. -/
theorem RLock.releaseN_of_lt (c j : Nat) (hj : j < c) :
    RLock.releaseN { count := c, underlying := true } j
      = ({ count := c - j, underlying := true }, 0) := by
  induction j generalizing c with
  | zero => simp [RLock.releaseN]
  | succ j ih =>
    obtain ⟨c', rfl⟩ : ∃ c', c = c' + 2 := ⟨c - 2, by omega⟩
    rw [RLock.releaseN_succ _ _ _ _ (RLock.release_ge_two c'),
      ih (c' + 1) (by omega)]
    simp only [Prod.mk.injEq, RLockState.mk.injEq]
    exact ⟨⟨by omega, by trivial⟩, by trivial⟩

/-- From a held state with counter `c ≥ 1`, exactly `c` releases bring the
counter to 0 and release the underlying lock exactly once, on the last
call. -/
theorem RLock.releaseN_exact (c : Nat) (hc : 1 ≤ c) :
    RLock.releaseN { count := c, underlying := true } c
      = ({ count := 0, underlying := false }, 1) := by
  induction c with
  | zero => omega
  | succ c ih =>
    rcases Nat.eq_zero_or_pos c with rfl | hpos
    · rfl
    · obtain ⟨c', rfl⟩ : ∃ c', c = c' + 1 := ⟨c - 1, by omega⟩
      rw [RLock.releaseN_succ _ _ _ _ (RLock.release_ge_two c'),
        ih (by omega)]
      rfl

/-- C2: the underlying file lock of a reentrant lock is held iff the
counter is positive (an invariant preserved by both operations), and `k`
acquires from the initial state followed by `k` releases take the
underlying lock exactly once, release it exactly once — at the `k`-th
release and not before. -/
theorem C2_rlock_counting (k : Nat) (hk : 1 ≤ k) :
    (∀ s : RLockState, (s.underlying = true ↔ 0 < s.count) →
      (((RLock.acquire s).1.underlying = true
          ↔ 0 < (RLock.acquire s).1.count) ∧
       ((RLock.release s).1.underlying = true
          ↔ 0 < (RLock.release s).1.count))) ∧
    RLock.acquireN RLock.init k
      = ({ count := k, underlying := true }, 1) ∧
    (∀ j, j < k →
      RLock.releaseN (RLock.acquireN RLock.init k).1 j
        = ({ count := k - j, underlying := true }, 0)) ∧
    RLock.releaseN (RLock.acquireN RLock.init k).1 k
      = ({ count := 0, underlying := false }, 1) := by
  have hacq : RLock.acquireN RLock.init k
      = ({ count := k, underlying := true }, 1) := by
    rcases k with _ | k
    · omega
    · have h1 : RLock.acquire RLock.init
          = ({ count := 0 + 1, underlying := true }, true) := rfl
      rw [RLock.acquireN_succ _ _ _ _ h1, RLock.acquireN_of_pos 0 k]
      simp only [Prod.mk.injEq, RLockState.mk.injEq]
      exact ⟨⟨by omega, by trivial⟩, by trivial⟩
  refine ⟨?_, hacq, ?_, ?_⟩
  · rintro ⟨c, u⟩ hinv
    rcases c with _ | c
    · cases u
      · exact ⟨by decide, by decide⟩
      · exact absurd (hinv.mp rfl) (by decide)
    · cases u
      · exact absurd (hinv.mpr ((by omega : (0:Nat) < c + 1))) (by simp)
      · refine ⟨?_, ?_⟩
        · rw [RLock.acquire_pos c]
          exact ⟨fun _ => (by omega : (0:Nat) < c + 2), fun _ => rfl⟩
        · rcases c with _ | c'
          · exact by decide
          · rw [RLock.release_ge_two c']
            exact ⟨fun _ => (by omega : (0:Nat) < c' + 1), fun _ => rfl⟩
  · intro j hj
    rw [hacq]
    exact RLock.releaseN_of_lt k j hj
  · rw [hacq]
    exact RLock.releaseN_exact k hk

/-- Witness: `C2_rlock_counting` at `k = 2`. -/
theorem C2_rlock_counting_witness :
    (∀ s : RLockState, (s.underlying = true ↔ 0 < s.count) →
      (((RLock.acquire s).1.underlying = true
          ↔ 0 < (RLock.acquire s).1.count) ∧
       ((RLock.release s).1.underlying = true
          ↔ 0 < (RLock.release s).1.count))) ∧
    RLock.acquireN RLock.init 2
      = ({ count := 2, underlying := true }, 1) ∧
    (∀ j, j < 2 →
      RLock.releaseN (RLock.acquireN RLock.init 2).1 j
        = ({ count := 2 - j, underlying := true }, 0)) ∧
    RLock.releaseN (RLock.acquireN RLock.init 2).1 2
      = ({ count := 0, underlying := false }, 1) :=
  C2_rlock_counting 2 (by decide)

/-- Every slot attempt of the spec's sequential scan uses
`fail_when_locked = true`. -/
theorem semTrySlots_fwl (locked : Nat → Bool) (l : List Nat) :
    ∀ p ∈ (semTrySlots locked l).2, p.2 = true := by
  induction l with
  | nil => simp [semTrySlots]
  | cons i rest ih =>
    intro p hp
    cases h : locked i
    · have hstep : semTrySlots locked (i :: rest)
          = (SemResult.ok i, [(i, true)]) := by
        simp [semTrySlots, h]
      rw [hstep] at hp
      simp only [List.mem_singleton] at hp
      simp [hp]
    · have hstep : semTrySlots locked (i :: rest)
          = ((semTrySlots locked rest).1,
             (i, true) :: (semTrySlots locked rest).2) := by
        simp [semTrySlots, h]
      rw [hstep] at hp
      rcases List.mem_cons.mp hp with rfl | hp'
      · rfl
      · exact ih p hp'

/-- The slots attempted by the sequential scan are an initial segment of
the candidate list, in order. -/
theorem semTrySlots_order (locked : Nat → Bool) (l : List Nat) :
    List.IsPrefix ((semTrySlots locked l).2.map Prod.fst) l := by
  induction l with
  | nil => simp [semTrySlots]
  | cons i rest ih =>
    cases h : locked i
    · have hstep : semTrySlots locked (i :: rest)
          = (SemResult.ok i, [(i, true)]) := by
        simp [semTrySlots, h]
      rw [hstep]
      exact ⟨rest, rfl⟩
    · have hstep : semTrySlots locked (i :: rest)
          = ((semTrySlots locked rest).1,
             (i, true) :: (semTrySlots locked rest).2) := by
        simp [semTrySlots, h]
      rw [hstep]
      obtain ⟨t, ht⟩ := ih
      exact ⟨t, by simp [ht]⟩

/-- When every candidate slot is contended, the sequential scan attempts
each of them once, in order, and reports that all slots are locked. -/
theorem semTrySlots_all_locked (locked : Nat → Bool) (l : List Nat)
    (h : ∀ i ∈ l, locked i = true) :
    semTrySlots locked l
      = (SemResult.allSlotsLocked, l.map fun i => (i, true)) := by
  induction l with
  | nil => simp [semTrySlots]
  | cons i rest ih =>
    have hi : locked i = true := h i (by simp)
    simp only [semTrySlots, hi, if_true, List.map_cons]
    rw [ih fun j hj => h j (by simp [hj])]

/-- C7: bounded-semaphore acquisition tries the slots `0 .. M-1` in
order, each individual attempt with `fail_when_locked = true`, and when
every slot is contended it fails with the all-slots-locked
(already-locked) error after attempting every slot exactly once. -/
theorem C7_semaphore_scan (M : Nat) (locked : Nat → Bool) :
    (∀ p ∈ (BoundedSemaphore.acquire M locked).2, p.2 = true) ∧
    List.IsPrefix ((BoundedSemaphore.acquire M locked).2.map Prod.fst)
      (List.range M) ∧
    ((∀ i, i < M → locked i = true) →
      BoundedSemaphore.acquire M locked
        = (SemResult.allSlotsLocked, (List.range M).map fun i => (i, true))) := by
  refine ⟨semTrySlots_fwl locked (List.range M),
    semTrySlots_order locked (List.range M), fun h => ?_⟩
  exact semTrySlots_all_locked locked (List.range M)
    fun i hi => h i (List.mem_range.mp hi)

/-- Witness: `C7_semaphore_scan` with three slots, all contended. -/
theorem C7_semaphore_scan_witness :
    (∀ p ∈ (BoundedSemaphore.acquire 3 (fun _ => true)).2, p.2 = true) ∧
    List.IsPrefix
      ((BoundedSemaphore.acquire 3 (fun _ => true)).2.map Prod.fst)
      (List.range 3) ∧
    ((∀ i, i < 3 → (fun _ => true) i = true) →
      BoundedSemaphore.acquire 3 (fun _ => true)
        = (SemResult.allSlotsLocked,
           (List.range 3).map fun i => (i, true))) :=
  C7_semaphore_scan 3 (fun _ => true)

/-- C5: when the caller's scope raises, `open_atomic` re-raises the same
exception, the trace closes the temporary handle and then unlinks the
temporary file, no rename happens, the target path is untouched and the
temporary file does not survive. -/
theorem C5_open_atomic_error (dirnameAbs : String → String)
    (tmpPath target written : String) (e : String) (fs : FS)
    (hne : tmpPath ≠ target) :
    (open_atomic dirnameAbs tmpPath target written (Except.error e)).1
        = Except.error e ∧
    (open_atomic dirnameAbs tmpPath target written (Except.error e)).2
        = [FsEvent.createTemp tmpPath (dirnameAbs target),
           FsEvent.writeTemp tmpPath written,
           FsEvent.closeTemp tmpPath,
           FsEvent.unlink tmpPath] ∧
    (∀ s d, FsEvent.rename s d
        ∉ (open_atomic dirnameAbs tmpPath target written (Except.error e)).2) ∧
    runFs fs (open_atomic dirnameAbs tmpPath target written (Except.error e)).2
        target = fs target ∧
    runFs fs (open_atomic dirnameAbs tmpPath target written (Except.error e)).2
        tmpPath = none := by
  have hne' : target ≠ tmpPath := fun h => hne h.symm
  refine ⟨rfl, rfl, ?_, ?_, ?_⟩
  · intro s d
    simp [open_atomic]
  · simp [open_atomic, runFs, FsEvent.apply, hne']
  · simp [open_atomic, runFs, FsEvent.apply]

/-- Witness: `C5_open_atomic_error` at concrete paths and exception. -/
theorem C5_open_atomic_error_witness :
    (open_atomic (fun _ => "/d") "/d/tmp1" "/d/t" "new" (Except.error "boom")).1
        = Except.error "boom" ∧
    (open_atomic (fun _ => "/d") "/d/tmp1" "/d/t" "new" (Except.error "boom")).2
        = [FsEvent.createTemp "/d/tmp1" ((fun _ => "/d") "/d/t"),
           FsEvent.writeTemp "/d/tmp1" "new",
           FsEvent.closeTemp "/d/tmp1",
           FsEvent.unlink "/d/tmp1"] ∧
    (∀ s d, FsEvent.rename s d
        ∉ (open_atomic (fun _ => "/d") "/d/tmp1" "/d/t" "new"
            (Except.error "boom")).2) ∧
    runFs (fun _ => none)
        (open_atomic (fun _ => "/d") "/d/tmp1" "/d/t" "new"
          (Except.error "boom")).2 "/d/t" = (fun _ => none) "/d/t" ∧
    runFs (fun _ => none)
        (open_atomic (fun _ => "/d") "/d/tmp1" "/d/t" "new"
          (Except.error "boom")).2 "/d/tmp1" = none :=
  C5_open_atomic_error (fun _ => "/d") "/d/tmp1" "/d/t" "new" "boom"
    (fun _ => none) (by decide)

/-- C6: `open_atomic` creates the temporary file in the directory of the
target path; on normal exit it first closes the temporary handle and then
renames the temporary file onto the target, which afterwards holds the
written content while the temporary path is gone. -/
theorem C6_open_atomic_commit (dirnameAbs : String → String)
    (tmpPath target written : String) (fs : FS) (hne : tmpPath ≠ target) :
    (open_atomic dirnameAbs tmpPath target written (Except.ok ())).1
        = Except.ok () ∧
    (open_atomic dirnameAbs tmpPath target written (Except.ok ())).2
        = [FsEvent.createTemp tmpPath (dirnameAbs target),
           FsEvent.writeTemp tmpPath written,
           FsEvent.closeTemp tmpPath,
           FsEvent.rename tmpPath target] ∧
    (∃ pre, (open_atomic dirnameAbs tmpPath target written (Except.ok ())).2
        = pre ++ [FsEvent.closeTemp tmpPath, FsEvent.rename tmpPath target]) ∧
    runFs fs (open_atomic dirnameAbs tmpPath target written (Except.ok ())).2
        target = some written ∧
    runFs fs (open_atomic dirnameAbs tmpPath target written (Except.ok ())).2
        tmpPath = none := by
  have hne' : target ≠ tmpPath := fun h => hne h.symm
  refine ⟨rfl, rfl,
    ⟨[FsEvent.createTemp tmpPath (dirnameAbs target),
      FsEvent.writeTemp tmpPath written], rfl⟩, ?_, ?_⟩
  · simp [open_atomic, runFs, FsEvent.apply, hne']
  · simp [open_atomic, runFs, FsEvent.apply, hne]

/-- Witness: `C6_open_atomic_commit` at concrete paths and content. -/
theorem C6_open_atomic_commit_witness :
    (open_atomic (fun _ => "/d") "/d/tmp1" "/d/t" "new" (Except.ok ())).1
        = Except.ok () ∧
    (open_atomic (fun _ => "/d") "/d/tmp1" "/d/t" "new" (Except.ok ())).2
        = [FsEvent.createTemp "/d/tmp1" ((fun _ => "/d") "/d/t"),
           FsEvent.writeTemp "/d/tmp1" "new",
           FsEvent.closeTemp "/d/tmp1",
           FsEvent.rename "/d/tmp1" "/d/t"] ∧
    (∃ pre, (open_atomic (fun _ => "/d") "/d/tmp1" "/d/t" "new"
            (Except.ok ())).2
        = pre ++ [FsEvent.closeTemp "/d/tmp1",
            FsEvent.rename "/d/tmp1" "/d/t"]) ∧
    runFs (fun _ => none)
        (open_atomic (fun _ => "/d") "/d/tmp1" "/d/t" "new"
          (Except.ok ())).2 "/d/t" = some "new" ∧
    runFs (fun _ => none)
        (open_atomic (fun _ => "/d") "/d/tmp1" "/d/t" "new"
          (Except.ok ())).2 "/d/tmp1" = none :=
  C6_open_atomic_commit (fun _ => "/d") "/d/tmp1" "/d/t" "new"
    (fun _ => none) (by decide)

/-- The poll loop never emits a truncation event: truncation is performed
only by `_prepare_fh`, after `acquire` has seen a successful lock. -/
theorem acquireLoop_no_truncate (attempts : Nat → Bool) (clk : Nat → ℚ)
    (ci te : ℚ) (orig : LockExc) :
    ∀ (fuel i hh : Nat),
      Event.truncateZero hh ∉ (acquireLoop attempts clk ci te orig i fuel).2 := by
  intro fuel
  induction fuel with
  | zero => intro i hh; simp [acquireLoop]
  | succ fuel ih =>
    intro i hh
    cases ha : attempts i
    · by_cases hc : clk i > te
      · simp [acquireLoop, ha, hc]
      · simp only [acquireLoop, ha, Bool.false_eq_true, if_false, hc]
        simp only [List.append_assoc, List.mem_append, List.mem_cons,
          List.mem_singleton]
        push_neg
        refine ⟨by simp, by simp, ih (i + 1) hh⟩
    · simp [acquireLoop, ha]

/-- A successful poll-loop run records the successful lock attempt on the
returned handle in its trace. -/
theorem acquireLoop_ok_mem (attempts : Nat → Bool) (clk : Nat → ℚ)
    (ci te : ℚ) (orig : LockExc) :
    ∀ (fuel i hh : Nat) (evs : List Event),
      acquireLoop attempts clk ci te orig i fuel = (some (Except.ok hh), evs) →
      Event.tryLock hh true ∈ evs := by
  intro fuel
  induction fuel with
  | zero => intro i hh evs heq; simp [acquireLoop] at heq
  | succ fuel ih =>
    intro i hh evs heq
    cases ha : attempts i
    · by_cases hc : clk i > te
      · have hstep : acquireLoop attempts clk ci te orig i (fuel + 1)
            = (some (Except.error (LockExc.wrapped orig)),
               [Event.sleep ci, Event.openFile i, Event.tryLock i false,
                Event.closeFile i]) := by
          simp [acquireLoop, ha, hc]
        rw [hstep] at heq
        exact absurd heq (by simp)
      · rcases hrec : acquireLoop attempts clk ci te orig (i + 1) fuel
          with ⟨r2, evs2⟩
        have hstep : acquireLoop attempts clk ci te orig i (fuel + 1)
            = (r2,
               [Event.sleep ci, Event.openFile i, Event.tryLock i false,
                Event.closeFile i] ++ evs2) := by
          simp [acquireLoop, ha, hc, hrec]
        rw [hstep] at heq
        rw [Prod.mk.injEq] at heq
        obtain ⟨hr2, rfl⟩ := heq
        refine List.mem_append.mpr (Or.inr ?_)
        exact ih (i + 1) hh evs2 (by rw [hrec, hr2])
    · have hstep : acquireLoop attempts clk ci te orig i (fuel + 1)
          = (some (Except.ok i),
             [Event.sleep ci, Event.openFile i, Event.tryLock i true]) := by
        simp [acquireLoop, ha]
      rw [hstep] at heq
      rw [Prod.mk.injEq] at heq
      obtain ⟨hok, rfl⟩ := heq
      have : i = hh := by simpa using hok
      subst this
      simp

/-- When the poll loop ends in an error, every handle it opened it also
closed. -/
theorem acquireLoop_error_closes (attempts : Nat → Bool) (clk : Nat → ℚ)
    (ci te : ℚ) (orig : LockExc) :
    ∀ (fuel i : Nat) (e : LockExc) (evs : List Event),
      acquireLoop attempts clk ci te orig i fuel
        = (some (Except.error e), evs) →
      ∀ hh, Event.openFile hh ∈ evs → Event.closeFile hh ∈ evs := by
  intro fuel
  induction fuel with
  | zero => intro i e evs heq; simp [acquireLoop] at heq
  | succ fuel ih =>
    intro i e evs heq hh hmem
    cases ha : attempts i
    · by_cases hc : clk i > te
      · have hstep : acquireLoop attempts clk ci te orig i (fuel + 1)
            = (some (Except.error (LockExc.wrapped orig)),
               [Event.sleep ci, Event.openFile i, Event.tryLock i false,
                Event.closeFile i]) := by
          simp [acquireLoop, ha, hc]
        rw [hstep] at heq
        rw [Prod.mk.injEq] at heq
        obtain ⟨_, rfl⟩ := heq
        have : hh = i := by simpa using hmem
        subst this
        simp
      · rcases hrec : acquireLoop attempts clk ci te orig (i + 1) fuel
          with ⟨r2, evs2⟩
        have hstep : acquireLoop attempts clk ci te orig i (fuel + 1)
            = (r2,
               [Event.sleep ci, Event.openFile i, Event.tryLock i false,
                Event.closeFile i] ++ evs2) := by
          simp [acquireLoop, ha, hc, hrec]
        rw [hstep] at heq
        rw [Prod.mk.injEq] at heq
        obtain ⟨hr2, rfl⟩ := heq
        rcases List.mem_append.mp hmem with hm1 | hm2
        · have : hh = i := by simpa using hm1
          subst this
          exact List.mem_append.mpr (Or.inl (by simp))
        · exact List.mem_append.mpr
            (Or.inr (ih (i + 1) e evs2 (by rw [hrec, hr2]) hh hm2))
    · have hstep : acquireLoop attempts clk ci te orig i (fuel + 1)
          = (some (Except.ok i),
             [Event.sleep ci, Event.openFile i, Event.tryLock i true]) := by
        simp [acquireLoop, ha]
      rw [hstep] at heq
      exact absurd heq (by simp)

/-- C3: when the first lock attempt hits contention and the effective
`fail_when_locked` is true, `acquire` closes the freshly opened handle and
re-raises the contention error immediately — the trace is exactly
open/try/close with no sleep, the instance state is untouched, and the
result does not depend on the timeout configuration (which is universally
quantified here). -/
theorem C3_fail_when_locked (st : LockState) (tA cA : Option ℚ)
    (fA : Option Bool) (attempts : Nat → Bool) (clk : Nat → ℚ) (fuel : Nat)
    (hfail : attempts 0 = false)
    (hfwl : fA.getD st.fail_when_locked = true) :
    acquire st tA cA fA attempts clk fuel
      = (some (Except.error (LockExc.contention 0)), st,
         [Event.openFile 0, Event.tryLock 0 false, Event.closeFile 0]) := by
  unfold acquire
  rw [hfail, hfwl]
  rfl

/-- Witness: `C3_fail_when_locked` on a lock whose instance
`fail_when_locked` is true, with the resource contended. -/
theorem C3_fail_when_locked_witness :
    acquire (Lock.init "f" ['a'] (some 5) 1 true) none none none
        (fun _ => false) (fun _ => 0) 3
      = (some (Except.error (LockExc.contention 0)),
         Lock.init "f" ['a'] (some 5) 1 true,
         [Event.openFile 0, Event.tryLock 0 false, Event.closeFile 0]) :=
  C3_fail_when_locked (Lock.init "f" ['a'] (some 5) 1 true) none none none
    (fun _ => false) (fun _ => 0) 3 rfl rfl

/-- C10: an `acquire` call that raises a contention-related error leaves
the instance state (in particular `fh`) exactly as it was, and every file
handle the call opened appears closed in its trace. -/
theorem C10_failed_acquire_cleanup (st : LockState) (tA cA : Option ℚ)
    (fA : Option Bool) (attempts : Nat → Bool) (clk : Nat → ℚ) (fuel : Nat)
    (e : LockExc) (st' : LockState) (evs : List Event)
    (hacq : acquire st tA cA fA attempts clk fuel
      = (some (Except.error e), st', evs)) :
    st' = st ∧ st'.fh = st.fh ∧
    ∀ hh, Event.openFile hh ∈ evs → Event.closeFile hh ∈ evs := by
  cases ha0 : attempts 0
  · cases hfw : fA.getD st.fail_when_locked
    · rcases hl : acquireLoop attempts clk (cA.getD st.check_interval)
          (clk 0 + tA.getD st.timeout) (LockExc.contention 0) 1 fuel
        with ⟨r2, evs2⟩
      rcases r2 with _ | r2
      · have hval : acquire st tA cA fA attempts clk fuel
            = (none, st, [Event.openFile 0, Event.tryLock 0 false,
                Event.closeFile 0] ++ evs2) := by
          unfold acquire
          rw [ha0, hfw, hl]
          rfl
        rw [hval] at hacq
        exact absurd hacq (by simp)
      · rcases r2 with e2 | h2
        · have hval : acquire st tA cA fA attempts clk fuel
              = (some (Except.error e2), st, [Event.openFile 0,
                  Event.tryLock 0 false, Event.closeFile 0] ++ evs2) := by
            unfold acquire
            rw [ha0, hfw, hl]
            rfl
          rw [hval] at hacq
          simp only [Prod.mk.injEq] at hacq
          obtain ⟨he, hst2, hevs⟩ := hacq
          subst hst2
          refine ⟨rfl, rfl, ?_⟩
          intro hh hmem
          rw [← hevs] at hmem ⊢
          rcases List.mem_append.mp hmem with hm1 | hm2
          · have : hh = 0 := by simpa using hm1
            subst this
            exact List.mem_append.mpr (Or.inl (by simp))
          · exact List.mem_append.mpr (Or.inr
              (acquireLoop_error_closes attempts clk
                (cA.getD st.check_interval) (clk 0 + tA.getD st.timeout)
                (LockExc.contention 0) fuel 1 e2 evs2 hl hh hm2))
        · have hval : acquire st tA cA fA attempts clk fuel
              = (some (Except.ok h2), { st with fh := some h2 },
                 ([Event.openFile 0, Event.tryLock 0 false, Event.closeFile 0]
                   ++ evs2) ++ prepare_fh st h2) := by
            unfold acquire
            rw [ha0, hfw, hl]
            rfl
          rw [hval] at hacq
          exact absurd hacq (by simp)
    · have hval : acquire st tA cA fA attempts clk fuel
          = (some (Except.error (LockExc.contention 0)), st,
             [Event.openFile 0, Event.tryLock 0 false, Event.closeFile 0]) := by
        unfold acquire
        rw [ha0, hfw]
        rfl
      rw [hval] at hacq
      simp only [Prod.mk.injEq] at hacq
      obtain ⟨he, hst2, hevs⟩ := hacq
      subst hst2
      refine ⟨rfl, rfl, ?_⟩
      intro hh hmem
      rw [← hevs] at hmem ⊢
      have : hh = 0 := by simpa using hmem
      subst this
      simp
  · have hval : acquire st tA cA fA attempts clk fuel
        = (some (Except.ok 0), { st with fh := some 0 },
           [Event.openFile 0, Event.tryLock 0 true] ++ prepare_fh st 0) := by
      unfold acquire
      rw [ha0]
      rfl
    rw [hval] at hacq
    exact absurd hacq (by simp)

/-- Witness: `C10_failed_acquire_cleanup` on an immediate already-locked
failure. -/
theorem C10_failed_acquire_cleanup_witness :
    Lock.init "f" ['a'] (some 5) 1 true
        = Lock.init "f" ['a'] (some 5) 1 true ∧
    (Lock.init "f" ['a'] (some 5) 1 true).fh
        = (Lock.init "f" ['a'] (some 5) 1 true).fh ∧
    ∀ hh, Event.openFile hh
        ∈ [Event.openFile 0, Event.tryLock 0 false, Event.closeFile 0] →
      Event.closeFile hh
        ∈ [Event.openFile 0, Event.tryLock 0 false, Event.closeFile 0] :=
  C10_failed_acquire_cleanup (Lock.init "f" ['a'] (some 5) 1 true)
    none none none (fun _ => false) (fun _ => 0) 3 (LockExc.contention 0)
    (Lock.init "f" ['a'] (some 5) 1 true)
    [Event.openFile 0, Event.tryLock 0 false, Event.closeFile 0]
    (rfl)

/-- One poll-loop iteration that fails its lock attempt while the
deadline has not passed: the loop recurses on the next attempt. -/
theorem acquireLoop_succ (attempts : Nat → Bool) (clk : Nat → ℚ)
    (ci te : ℚ) (orig : LockExc) (i fuel : Nat)
    (ha : attempts i = false) (hc : ¬ clk i > te) :
    acquireLoop attempts clk ci te orig i (fuel + 1)
      = ((acquireLoop attempts clk ci te orig (i + 1) fuel).1,
         [Event.sleep ci, Event.openFile i, Event.tryLock i false,
          Event.closeFile i]
           ++ (acquireLoop attempts clk ci te orig (i + 1) fuel).2) := by
  simp [acquireLoop, ha, hc]

/-- When every lock attempt fails and the clock is monotone, the poll
loop raises the wrapped timeout error at the first clock reading past
`timeout_end`; the raise happens within the fuel bound, no earlier
reading exceeded the deadline, and the last handle opened is the one of
the raising iteration. -/
theorem acquireLoop_timeout (attempts : Nat → Bool) (clk : Nat → ℚ)
    (ci te : ℚ) (orig : LockExc)
    (hfail : ∀ n, attempts n = false)
    (hmono : ∀ a b, a ≤ b → clk a ≤ clk b) :
    ∀ (f i : Nat), clk (i + f) > te →
      ∃ k evs, i ≤ k ∧ k ≤ i + f ∧
        acquireLoop attempts clk ci te orig i (f + 1)
          = (some (Except.error (LockExc.wrapped orig)), evs) ∧
        clk k > te ∧ (∀ j, i ≤ j → j < k → clk j ≤ te) ∧
        Event.openFile k ∈ evs ∧
        (∀ m, Event.openFile m ∈ evs → i ≤ m ∧ m ≤ k) := by
  intro f
  induction f with
  | zero =>
    intro i hgt
    have hgt0 : clk i > te := by simpa using hgt
    refine ⟨i, [Event.sleep ci, Event.openFile i, Event.tryLock i false,
      Event.closeFile i], le_refl i, by omega, ?_, hgt0, ?_, by simp, ?_⟩
    · simp [acquireLoop, hfail i, hgt0]
    · intro j hij hji
      omega
    · intro m hm
      have : m = i := by simpa using hm
      omega
  | succ f ih =>
    intro i hgt
    by_cases hc : clk i > te
    · refine ⟨i, [Event.sleep ci, Event.openFile i, Event.tryLock i false,
        Event.closeFile i], le_refl i, by omega, ?_, hc, ?_, by simp, ?_⟩
      · simp [acquireLoop, hfail i, hc]
      · intro j hij hji
        omega
      · intro m hm
        have : m = i := by simpa using hm
        omega
    · have hgt2 : clk ((i + 1) + f) > te := by
        have harith : (i + 1) + f = i + (f + 1) := by omega
        rw [harith]
        exact hgt
      obtain ⟨k, evs2, h1k, hkf, hres, hclkk, hbefore, hmemk, hbound⟩ :=
        ih (i + 1) hgt2
      refine ⟨k, [Event.sleep ci, Event.openFile i, Event.tryLock i false,
        Event.closeFile i] ++ evs2, by omega, by omega, ?_, hclkk, ?_, ?_, ?_⟩
      · rw [acquireLoop_succ attempts clk ci te orig i (f + 1) (hfail i) hc,
          hres]
      · intro j hij hjk
        rcases Nat.eq_or_lt_of_le hij with rfl | hij2
        · exact le_of_not_lt hc
        · exact hbefore j hij2 hjk
      · exact List.mem_append.mpr (Or.inr hmemk)
      · intro m hm
        rcases List.mem_append.mp hm with hm1 | hm2
        · have : m = i := by simpa using hm1
          omega
        · have := hbound m hm2
          omega

/-- C4: an `acquire` call whose every lock attempt hits contention raises
the timeout error — a `LockException` wrapping the original first
contention error — at the first clock reading past the deadline: the
raising reading `clk k` exceeds the start of the call (any `tstart` at or
before the first reading) plus the effective timeout, no earlier reading
exceeded `clk 0 +` timeout, and attempt `k` is the last one made. -/
theorem C4_timeout_wallclock (st : LockState) (tA cA : Option ℚ)
    (fA : Option Bool) (attempts : Nat → Bool) (clk : Nat → ℚ) (fuel : Nat)
    (tstart : ℚ)
    (hfail : ∀ i, attempts i = false)
    (hfwl : fA.getD st.fail_when_locked = false)
    (hmono : ∀ a b, a ≤ b → clk a ≤ clk b)
    (hstart : tstart ≤ clk 0)
    (hfuel : 1 ≤ fuel)
    (hclk : clk fuel > clk 0 + tA.getD st.timeout) :
    ∃ k evs,
      acquire st tA cA fA attempts clk fuel
        = (some (Except.error (LockExc.wrapped (LockExc.contention 0))),
           st, evs) ∧
      1 ≤ k ∧ k ≤ fuel ∧
      clk k > tstart + tA.getD st.timeout ∧
      (∀ j, 1 ≤ j → j < k → clk j ≤ clk 0 + tA.getD st.timeout) ∧
      Event.openFile k ∈ evs ∧ (∀ m, Event.openFile m ∈ evs → m ≤ k) := by
  obtain ⟨f, rfl⟩ : ∃ f, fuel = f + 1 := ⟨fuel - 1, by omega⟩
  have hgt : clk (1 + f) > clk 0 + tA.getD st.timeout := by
    have harith : 1 + f = f + 1 := by omega
    rw [harith]
    exact hclk
  obtain ⟨k, evs2, h1k, hkf, hres, hclkk, hbefore, hmemk, hbound⟩ :=
    acquireLoop_timeout attempts clk (cA.getD st.check_interval)
      (clk 0 + tA.getD st.timeout) (LockExc.contention 0) hfail hmono f 1 hgt
  refine ⟨k, [Event.openFile 0, Event.tryLock 0 false, Event.closeFile 0]
      ++ evs2, ?_, h1k, by omega, ?_, hbefore, ?_, ?_⟩
  · unfold acquire
    rw [hfail 0, hfwl, hres]
    rfl
  · exact lt_of_le_of_lt (add_le_add_right hstart (tA.getD st.timeout)) hclkk
  · exact List.mem_append.mpr (Or.inr hmemk)
  · intro m hm
    rcases List.mem_append.mp hm with hm1 | hm2
    · have : m = 0 := by simpa using hm1
      omega
    · exact (hbound m hm2).2

/-- Witness: `C4_timeout_wallclock` with timeout 5, unit clock steps and
six attempts. -/
theorem C4_timeout_wallclock_witness :
    ∃ (k : Nat) (evs : List Event),
      acquire (Lock.init "f" ['a'] (some 5) 1 false) none none none
          (fun _ => false) (fun n => (n : ℚ)) 6
        = (some (Except.error (LockExc.wrapped (LockExc.contention 0))),
           Lock.init "f" ['a'] (some 5) 1 false, evs) ∧
      1 ≤ k ∧ k ≤ 6 ∧
      ((k : ℚ))
        > 0 + Option.getD none (Lock.init "f" ['a'] (some 5) 1 false).timeout ∧
      (∀ j, 1 ≤ j → j < k → ((j : ℚ))
        ≤ (((0 : Nat)) : ℚ)
            + Option.getD none (Lock.init "f" ['a'] (some 5) 1 false).timeout) ∧
      Event.openFile k ∈ evs ∧ (∀ m, Event.openFile m ∈ evs → m ≤ k) :=
  C4_timeout_wallclock (Lock.init "f" ['a'] (some 5) 1 false) none none none
    (fun _ => false) (fun n => (n : ℚ)) 6 0
    (fun _ => rfl) rfl
    (fun a b h => Nat.cast_le.mpr h)
    (by norm_num) (by decide)
    (by show ((6:Nat):ℚ) > ((0:Nat):ℚ) + 5; norm_num)

/-- C1: a Lock constructed with a mode containing `'w'` gets the
deferred-truncate flag and an append mode (every `'w'` replaced by `'a'`,
so no `'w'` remains), and on any successful acquire the trace ends with
the seek/truncate of the returned handle, strictly after the successful
lock attempt on that handle, with no truncation anywhere earlier. -/
theorem C1_truncate_after_lock (fn : String) (mode0 : List Char)
    (tmo : Option ℚ) (ci0 : ℚ) (fwl0 : Bool) (tA cA : Option ℚ)
    (fA : Option Bool) (attempts : Nat → Bool) (clk : Nat → ℚ) (fuel : Nat)
    (hh : Nat) (st' : LockState) (evs : List Event)
    (hw : 'w' ∈ mode0)
    (hacq : acquire (Lock.init fn mode0 tmo ci0 fwl0) tA cA fA attempts clk
        fuel = (some (Except.ok hh), st', evs)) :
    (Lock.init fn mode0 tmo ci0 fwl0).truncate = true ∧
    (Lock.init fn mode0 tmo ci0 fwl0).mode = pyReplaceChar mode0 'w' 'a' ∧
    'w' ∉ (Lock.init fn mode0 tmo ci0 fwl0).mode ∧
    ∃ pre, evs = pre ++ [Event.seekZero hh, Event.truncateZero hh] ∧
      Event.tryLock hh true ∈ pre ∧ ∀ h2, Event.truncateZero h2 ∉ pre := by
  have htr : (Lock.init fn mode0 tmo ci0 fwl0).truncate = true := by
    simp [Lock.init, hw]
  have hmode : (Lock.init fn mode0 tmo ci0 fwl0).mode
      = pyReplaceChar mode0 'w' 'a' := by
    simp [Lock.init, hw]
  have hpfh : ∀ m, prepare_fh (Lock.init fn mode0 tmo ci0 fwl0) m
      = [Event.seekZero m, Event.truncateZero m] := fun m => by
    simp [prepare_fh, htr]
  refine ⟨htr, hmode, ?_, ?_⟩
  · rw [hmode]
    intro hmem
    obtain ⟨c, hc, hfc⟩ := List.mem_map.mp hmem
    by_cases h : c = 'w'
    · rw [if_pos h] at hfc
      exact absurd hfc (by decide)
    · rw [if_neg h] at hfc
      exact h hfc
  · cases ha0 : attempts 0
    · cases hfw : fA.getD (Lock.init fn mode0 tmo ci0 fwl0).fail_when_locked
      · rcases hl : acquireLoop attempts clk
            (cA.getD (Lock.init fn mode0 tmo ci0 fwl0).check_interval)
            (clk 0 + tA.getD (Lock.init fn mode0 tmo ci0 fwl0).timeout)
            (LockExc.contention 0) 1 fuel with ⟨r2, evs2⟩
        rcases r2 with _ | r2
        · have hval : acquire (Lock.init fn mode0 tmo ci0 fwl0) tA cA fA
              attempts clk fuel
              = (none, Lock.init fn mode0 tmo ci0 fwl0,
                 [Event.openFile 0, Event.tryLock 0 false, Event.closeFile 0]
                   ++ evs2) := by
            unfold acquire
            rw [ha0, hfw, hl]
            rfl
          rw [hval] at hacq
          exact absurd hacq (by simp)
        · rcases r2 with e2 | h2
          · have hval : acquire (Lock.init fn mode0 tmo ci0 fwl0) tA cA fA
                attempts clk fuel
                = (some (Except.error e2), Lock.init fn mode0 tmo ci0 fwl0,
                   [Event.openFile 0, Event.tryLock 0 false,
                    Event.closeFile 0] ++ evs2) := by
              unfold acquire
              rw [ha0, hfw, hl]
              rfl
            rw [hval] at hacq
            exact absurd hacq (by simp)
          · have hval : acquire (Lock.init fn mode0 tmo ci0 fwl0) tA cA fA
                attempts clk fuel
                = (some (Except.ok h2),
                   { Lock.init fn mode0 tmo ci0 fwl0 with fh := some h2 },
                   ([Event.openFile 0, Event.tryLock 0 false,
                     Event.closeFile 0] ++ evs2)
                     ++ prepare_fh (Lock.init fn mode0 tmo ci0 fwl0) h2) := by
              unfold acquire
              rw [ha0, hfw, hl]
              rfl
            rw [hval] at hacq
            simp only [Prod.mk.injEq] at hacq
            obtain ⟨hok, hst2, hevs⟩ := hacq
            have hh2 : h2 = hh := by simpa using hok
            subst hh2
            refine ⟨[Event.openFile 0, Event.tryLock 0 false,
              Event.closeFile 0] ++ evs2, ?_, ?_, ?_⟩
            · rw [← hevs, hpfh h2]
            · refine List.mem_append.mpr (Or.inr ?_)
              exact acquireLoop_ok_mem attempts clk
                (cA.getD (Lock.init fn mode0 tmo ci0 fwl0).check_interval)
                (clk 0 + tA.getD (Lock.init fn mode0 tmo ci0 fwl0).timeout)
                (LockExc.contention 0) fuel 1 h2 evs2 hl
            · intro h3 hmem
              rcases List.mem_append.mp hmem with hm1 | hm2
              · simp at hm1
              · have hnt := acquireLoop_no_truncate attempts clk
                  (cA.getD (Lock.init fn mode0 tmo ci0 fwl0).check_interval)
                  (clk 0 + tA.getD (Lock.init fn mode0 tmo ci0 fwl0).timeout)
                  (LockExc.contention 0) fuel 1 h3
                rw [hl] at hnt
                exact hnt hm2
      · have hval : acquire (Lock.init fn mode0 tmo ci0 fwl0) tA cA fA
            attempts clk fuel
            = (some (Except.error (LockExc.contention 0)),
               Lock.init fn mode0 tmo ci0 fwl0,
               [Event.openFile 0, Event.tryLock 0 false,
                Event.closeFile 0]) := by
          unfold acquire
          rw [ha0, hfw]
          rfl
        rw [hval] at hacq
        exact absurd hacq (by simp)
    · have hval : acquire (Lock.init fn mode0 tmo ci0 fwl0) tA cA fA
          attempts clk fuel
          = (some (Except.ok 0),
             { Lock.init fn mode0 tmo ci0 fwl0 with fh := some 0 },
             [Event.openFile 0, Event.tryLock 0 true]
               ++ prepare_fh (Lock.init fn mode0 tmo ci0 fwl0) 0) := by
        unfold acquire
        rw [ha0]
        rfl
      rw [hval] at hacq
      simp only [Prod.mk.injEq] at hacq
      obtain ⟨hok, hst2, hevs⟩ := hacq
      have hh0 : 0 = hh := by simpa using hok
      subst hh0
      refine ⟨[Event.openFile 0, Event.tryLock 0 true], ?_, by simp, by simp⟩
      rw [← hevs, hpfh 0]

/-- Witness: `C1_truncate_after_lock` for mode `wb` with the first lock
attempt succeeding. -/
theorem C1_truncate_after_lock_witness :
    (Lock.init "f" ['w', 'b'] none 1 false).truncate = true ∧
    (Lock.init "f" ['w', 'b'] none 1 false).mode
      = pyReplaceChar ['w', 'b'] 'w' 'a' ∧
    'w' ∉ (Lock.init "f" ['w', 'b'] none 1 false).mode ∧
    ∃ pre, [Event.openFile 0, Event.tryLock 0 true, Event.seekZero 0,
        Event.truncateZero 0]
      = pre ++ [Event.seekZero 0, Event.truncateZero 0] ∧
      Event.tryLock 0 true ∈ pre ∧ ∀ h2, Event.truncateZero h2 ∉ pre :=
  C1_truncate_after_lock "f" ['w', 'b'] none 1 false none none none
    (fun _ => true) (fun _ => 0) 0 0
    { Lock.init "f" ['w', 'b'] none 1 false with fh := some 0 }
    [Event.openFile 0, Event.tryLock 0 true, Event.seekZero 0,
     Event.truncateZero 0]
    (by decide) rfl

end Portalocker
